import Mathlib

/-!
Verification development for the pirate game rules engine
(`game_state.py` and `game_tools.py`).  The data model and every
operation below are shallow embeddings of the corresponding Python
definitions: the grid is a rectangular array of cell codes, positions
are integer pairs, and each mutating method becomes a function from the
game state to a result tuple together with the updated state.
-/

namespace Pirates

/-- Cell classification of a map tile, mirroring the `CellType` enum. -/
inductive Cell where
  | water
  | land
  | treasure
  | enemy
  | monster
  | ownship
  deriving DecidableEq

/-- Single-letter code of a cell, as stored in the CSV grid. -/
def Cell.code : Cell → String
  | .water => "W"
  | .land => "L"
  | .treasure => "T"
  | .enemy => "E"
  | .monster => "M"
  | .ownship => "O"

/-- Display string of a cell lookup result, as Python prints it inside
the blocked-path message: the cell letter, or `None` when the lookup
was out of bounds. -/
def cellStr : Option Cell → String
  | some c => c.code
  | none => "None"

/-- Position on the game map, mirroring the frozen `Position` dataclass. -/
structure Position where
  x : Int
  y : Int
  deriving DecidableEq

/-- Rectangular game map: fixed dimensions plus the cell content of
each in-bounds coordinate, indexed as `cell x y` for `grid[y][x]`. -/
structure GameMap where
  width : Nat
  height : Nat
  cell : Nat → Nat → Cell

/-- Bounds check, mirroring `GameMap.is_valid_position`. -/
def GameMap.isValidPosition (m : GameMap) (p : Position) : Bool :=
  0 ≤ p.x && p.x < (m.width : Int) && 0 ≤ p.y && p.y < (m.height : Int)

/-- Cell lookup, mirroring `GameMap.get_cell`: `none` out of bounds. -/
def GameMap.getCell (m : GameMap) (p : Position) : Option Cell :=
  if m.isValidPosition p then some (m.cell p.x.toNat p.y.toNat) else none

/-- Cell update, mirroring `GameMap.set_cell`: a no-op out of bounds. -/
def GameMap.setCell (m : GameMap) (p : Position) (v : Cell) : GameMap :=
  if m.isValidPosition p then
    { m with cell := fun a b => if a = p.x.toNat ∧ b = p.y.toNat then v else m.cell a b }
  else m

/-- Traversability check, mirroring `GameMap.can_move_to`. -/
def GameMap.canMoveTo (m : GameMap) (p : Position) : Bool :=
  if m.isValidPosition p then m.getCell p != some Cell.land else false

/-- Unit step in the direction of `d`, mirroring the Python expression
`1 if d > 0 else -1 if d < 0 else 0`. -/
def stepSign (d : Int) : Int :=
  if 0 < d then 1 else if d < 0 then -1 else 0

/-- Horizontal single step used by the path walk. -/
def hStep (dx : Int) (p : Position) : Position :=
  ⟨p.x + stepSign dx, p.y⟩

/-- Vertical single step used by the path walk. -/
def vStep (dy : Int) (p : Position) : Position :=
  ⟨p.x, p.y + stepSign dy⟩

/-- One leg of the path walk in `is_path_clear`: take `n` copies of
`step` from `cur`, failing at the first non-traversable cell with that
cell content and coordinates, otherwise returning the final position
and the list of visited positions. -/
def walkSteps (m : GameMap) (step : Position → Position) :
    Nat → Position → Except (Option Cell × Position) (Position × List Position)
  | 0, cur => .ok (cur, [])
  | n + 1, cur =>
    let nxt := step cur
    if m.canMoveTo nxt then
      match walkSteps m step n nxt with
      | .ok (fin, rest) => .ok (fin, nxt :: rest)
      | .error e => .error e
    else
      .error (m.getCell nxt, nxt)

/-- Message reported when the path walk hits a non-traversable cell. -/
def blockedMsg (c : Option Cell) (p : Position) : String :=
  "Path blocked by " ++ cellStr c ++ " at (" ++ toString p.x ++ ", " ++ toString p.y ++ ")"

/-- Message reported when the requested move exceeds three tiles. -/
def distMsg (d : Nat) : String :=
  "Move distance (" ++ toString d ++ ") exceeds maximum of 3 tiles"

/-- Path validation, mirroring `GameMap.is_path_clear`: reject moves of
Manhattan length above 3, then walk all horizontal steps followed by
all vertical steps, failing fast at the first blocked cell. -/
def GameMap.isPathClear (m : GameMap) (s e : Position) : Bool × String × List Position :=
  let dx := e.x - s.x
  let dy := e.y - s.y
  let distance := dx.natAbs + dy.natAbs
  if 3 < distance then (false, distMsg distance, [])
  else
    match walkSteps m (hStep dx) dx.natAbs s with
    | .error be => (false, blockedMsg be.1 be.2, [])
    | .ok (mid, hpath) =>
      match walkSteps m (vStep dy) dy.natAbs mid with
      | .error be => (false, blockedMsg be.1 be.2, [])
      | .ok (_, vpath) => (true, "Path is clear", hpath ++ vpath)

/-- Positions stepped through by one leg of the walk, independent of
any map: `n` copies of `step` starting after `cur`. -/
def raySteps (step : Position → Position) : Nat → Position → List Position
  | 0, _ => []
  | n + 1, cur => step cur :: raySteps step n (step cur)

/-- The horizontal-then-vertical step sequence from `s` for the
displacement `(dx, dy)`, excluding the start position. -/
def pathPositions (s : Position) (dx dy : Int) : List Position :=
  raySteps (hStep dx) dx.natAbs s ++ raySteps (vStep dy) dy.natAbs ⟨s.x + dx, s.y⟩

/-- Row-major list of positions holding a given cell type, mirroring
`GameMap.find_cell_type`. -/
def GameMap.findCellType (m : GameMap) (c : Cell) : List Position :=
  (List.range m.height).flatMap fun y =>
    (List.range m.width).filterMap fun x =>
      if m.cell x y = c then some ⟨(x : Int), (y : Int)⟩ else none

/-- Cells within a square radius of a position, in the iteration order
of `GameMap.get_surrounding_cells` (rows top to bottom, then columns). -/
def rangeOffsets (radius : Nat) : List Int :=
  (List.range (2 * radius + 1)).map fun i : Nat => (i : Int) - radius

/-- In-bounds cells within the square radius of `pos`, mirroring
`GameMap.get_surrounding_cells`. -/
def GameMap.getSurroundingCells (m : GameMap) (pos : Position) (radius : Nat) :
    List (Position × Cell) :=
  (rangeOffsets radius).flatMap fun dy =>
    (rangeOffsets radius).filterMap fun dx =>
      let p : Position := ⟨pos.x + dx, pos.y + dy⟩
      match m.getCell p with
      | some c => some (p, c)
      | none => none

/-- Manhattan distance between two positions. -/
def manhattanDist (a b : Position) : Nat :=
  (b.x - a.x).natAbs + (b.y - a.y).natAbs

/-- Chebyshev distance between two positions. -/
def chebyshevDist (a b : Position) : Nat :=
  max (b.x - a.x).natAbs (b.y - a.y).natAbs

/-- The mutable game state fields of `GameState`. -/
structure GameState where
  map : GameMap
  shipPos : Position
  treasuresCollected : Nat
  lives : Int
  cannonballs : Int
  score : Int
  enemiesDefeated : Nat
  monstersDefeated : Nat
  turnCount : Nat
  totalTreasures : Nat
  gameOver : Bool
  victory : Bool

/-- Construction of the game state from a loaded map, mirroring
`GameState.__init__`: the first ship marker in row-major order becomes
the ship position and is replaced by water, and the remaining treasure
cells are counted; `none` when no ship marker exists (the constructor
raises in that case). -/
def mkGameState (m : GameMap) : Option GameState :=
  match m.findCellType Cell.ownship with
  | [] => none
  | p :: _ =>
    let m' := m.setCell p Cell.water
    some
      { map := m'
        shipPos := p
        treasuresCollected := 0
        lives := 3
        cannonballs := 25
        score := 0
        enemiesDefeated := 0
        monstersDefeated := 0
        turnCount := 0
        totalTreasures := (m'.findCellType Cell.treasure).length
        gameOver := false
        victory := false }

/-- Treasure pickup, mirroring `GameState.collect_treasure`. -/
def GameState.collectTreasure (s : GameState) (p : Position) : GameState :=
  { s with
    treasuresCollected := s.treasuresCollected + 1
    cannonballs := s.cannonballs + 2
    score := s.score + 10
    map := s.map.setCell p Cell.water }

/-- Contact damage, mirroring `GameState.take_damage`. -/
def GameState.takeDamage (s : GameState) : GameState :=
  let l := s.lives - 1
  { s with lives := l, gameOver := if l ≤ 0 then true else s.gameOver }

/-- Effect of the ship stepping onto one path cell during a move: the
per-step encounter handling inside `GameState.move_ship`. -/
def GameState.processStep (s : GameState) (p : Position) : GameState :=
  match s.map.getCell p with
  | some Cell.treasure => s.collectTreasure p
  | some Cell.enemy =>
    let s' := s.takeDamage
    { s' with map := s'.map.setCell p Cell.water }
  | some Cell.monster =>
    let s' := s.takeDamage
    { s' with map := s'.map.setCell p Cell.water }
  | _ => s

/-- Whether stepping onto `p` produces an encounter record. -/
def GameState.isEncounterCell (s : GameState) (p : Position) : Bool :=
  match s.map.getCell p with
  | some Cell.treasure => true
  | some Cell.enemy => true
  | some Cell.monster => true
  | _ => false

/-- The encounter loop of `GameState.move_ship`: process each path cell
in order, also counting the encounters recorded along the way. -/
def GameState.processSteps (s : GameState) (l : List Position) : GameState × Nat :=
  l.foldl (fun acc p =>
    (acc.1.processStep p, acc.2 + (if acc.1.isEncounterCell p then 1 else 0))) (s, 0)

/-- Collision resolution, mirroring `GameState.resolve_collision`:
contact damage plus removal of the hostile from the map, returning the
collision message. -/
def GameState.resolveCollision (s : GameState) (p : Position) (entityType : String) :
    GameState × String :=
  let s' := s.takeDamage
  let s'' := { s' with map := s'.map.setCell p Cell.water }
  (s'', "COLLISION! " ++ entityType ++ " at (" ++ toString p.x ++ "," ++ toString p.y ++
    ") collided with ship! Lost " ++ toString (s.lives - s''.lives) ++ " life.")

/-- Overlap safety net, mirroring
`GameState.check_and_handle_position_overlaps`.  The source scans every
grid cell, but its overlap condition only matches the ship position, so
the scan amounts to the single lookup at the ship position. -/
def GameState.checkAndHandleOverlaps (s : GameState) : GameState × String :=
  match s.map.getCell s.shipPos with
  | some Cell.enemy => s.resolveCollision s.shipPos "Enemy"
  | some Cell.monster => s.resolveCollision s.shipPos "Monster"
  | _ => (s, "")

/-- Ship movement, mirroring `GameState.move_ship`: validate the path,
process each step, relocate the ship, bump the turn counter, run the
overlap safety net, then evaluate the victory and defeat conditions. -/
def GameState.moveShip (s : GameState) (d : Int × Int) : Bool × String × GameState :=
  let target : Position := ⟨s.shipPos.x + d.1, s.shipPos.y + d.2⟩
  match s.map.isPathClear s.shipPos target with
  | (false, msg, _) => (false, msg, s)
  | (true, _, path) =>
    let r := s.processSteps path
    let s2 : GameState := { r.1 with shipPos := target, turnCount := r.1.turnCount + 1 }
    let s3 : GameState := s2.checkAndHandleOverlaps.1
    let s4 : GameState :=
      if s3.totalTreasures ≤ s3.treasuresCollected then
        { s3 with victory := true, gameOver := true }
      else s3
    let s5 : GameState := if s4.lives ≤ 0 then { s4 with gameOver := true } else s4
    let msg := "Successfully moved to " ++ toString target.x ++ "," ++ toString target.y ++
      (if 0 < r.2 then " with " ++ toString r.2 ++ " encounters" else "")
    (true, msg, s5)

/-- Hit probability table of `GameState.fire_cannon`, keyed by the
Manhattan distance, with 0.25 the default outside the table. -/
def hitProbabilities (d : Nat) : ℚ :=
  match d with
  | 1 => 95 / 100
  | 2 => 90 / 100
  | 3 => 75 / 100
  | 4 => 50 / 100
  | 5 => 25 / 100
  | _ => 25 / 100

/-- Cannon fire, mirroring `GameState.fire_cannon`; `roll` stands for
the single uniform draw of `random.random()`. -/
def GameState.fireCannon (s : GameState) (target : Position) (roll : ℚ) :
    Bool × String × GameState :=
  if s.cannonballs ≤ 0 then
    (false, "No cannonballs remaining! Collect treasures to get more ammunition.", s)
  else
    let distance := manhattanDist s.shipPos target
    if 5 < distance then
      (false, "Target too far - cannons have range of 5 tiles (target distance: " ++
        toString distance ++ ")", s)
    else
      let cellContent := s.map.getCell target
      if cellContent = some Cell.enemy ∨ cellContent = some Cell.monster then
        let s1 := { s with cannonballs := s.cannonballs - 1 }
        let hitChance := hitProbabilities distance
        if roll ≤ hitChance then
          let s2 := { s1 with map := s1.map.setCell target Cell.water }
          let s3 :=
            if cellContent = some Cell.enemy then
              { s2 with enemiesDefeated := s2.enemiesDefeated + 1, score := s2.score + 10 }
            else
              { s2 with monstersDefeated := s2.monstersDefeated + 1, score := s2.score + 50 }
          let targetType := if cellContent = some Cell.enemy then "Enemy" else "Monster"
          let pointsMsg := if cellContent = some Cell.enemy then "+10 points" else "+50 points"
          (true, "Direct hit! " ++ targetType ++ " destroyed at " ++ toString target.x ++
            "," ++ toString target.y ++ "! " ++ pointsMsg ++ "! Score: " ++ toString s3.score ++
            ". Cannonballs remaining: " ++ toString s3.cannonballs, s3)
        else
          (false, "Cannon fire missed target at " ++ toString target.x ++ "," ++
            toString target.y ++ ". Cannonballs remaining: " ++ toString s1.cannonballs, s1)
      else
        let s1 := { s with cannonballs := s.cannonballs - 1 }
        (false, "Cannon fired at empty water at (" ++ toString target.x ++ "," ++
          toString target.y ++ "). Cannonballs remaining: " ++ toString s1.cannonballs, s1)

/-- Name string used for a hostile cell in messages and logs. -/
def hostileName (c : Cell) : String :=
  if c = Cell.enemy then "Enemy" else "Monster"

/-- One record of the movement log returned by
`GameState.move_enemies_and_monsters`. -/
structure MoveLog where
  entityType : String
  fromPos : Position
  toPos : Position
  collision : Bool
  blocked : Bool
  distanceToShip : Nat
  message : String
  deriving DecidableEq

/-- Candidate steps of a pursuing hostile toward the ship, in the
preference order of `move_enemies_and_monsters`: the diagonal step when
both axes are misaligned, then the horizontal-only step, then the
vertical-only step. -/
def GameState.movementOptions (s : GameState) (currentPos : Position) : List Position :=
  let moveX := stepSign (s.shipPos.x - currentPos.x)
  let moveY := stepSign (s.shipPos.y - currentPos.y)
  (if moveX ≠ 0 ∧ moveY ≠ 0 then
    [Position.mk (currentPos.x + moveX) (currentPos.y + moveY)] else []) ++
  (if moveX ≠ 0 then [Position.mk (currentPos.x + moveX) currentPos.y] else []) ++
  (if moveY ≠ 0 then [Position.mk currentPos.x (currentPos.y + moveY)] else [])

/-- The first candidate step landing on an in-bounds water cell, as
selected by the candidate loop of `move_enemies_and_monsters`. -/
def GameState.chooseMove (s : GameState) (currentPos : Position) : Option Position :=
  (s.movementOptions currentPos).find? fun np =>
    s.map.isValidPosition np && (s.map.getCell np == some Cell.water)

/-- Processing of a single hostile inside
`GameState.move_enemies_and_monsters`: hostiles beyond Chebyshev
distance 3 are skipped entirely; otherwise the first valid candidate
step is taken, as a collision when it coincides with the ship and as a
relocation otherwise, and the hostile is reported blocked when no
candidate is valid. -/
def GameState.moveEntity (s : GameState) (currentPos : Position) (entityType : Cell) :
    GameState × List MoveLog :=
  let distance := chebyshevDist currentPos s.shipPos
  if distance ≤ 3 then
    match s.chooseMove currentPos with
    | some np =>
      if np = s.shipPos then
        let r := s.resolveCollision currentPos (hostileName entityType)
        (r.1, [{ entityType := hostileName entityType, fromPos := currentPos, toPos := np,
                 collision := true, blocked := false, distanceToShip := 0, message := r.2 }])
      else
        let m1 := s.map.setCell currentPos Cell.water
        let m2 := m1.setCell np entityType
        ({ s with map := m2 },
         [{ entityType := hostileName entityType, fromPos := currentPos, toPos := np,
            collision := false, blocked := false,
            distanceToShip := chebyshevDist np s.shipPos, message := "" }])
    | none =>
      (s, [{ entityType := hostileName entityType, fromPos := currentPos,
             toPos := currentPos, collision := false, blocked := true,
             distanceToShip := distance, message := "" }])
  else (s, [])

/-- Row-major scan for hostile cells, as at the start of
`GameState.move_enemies_and_monsters`. -/
def GameMap.findHostiles (m : GameMap) : List (Position × Cell) :=
  (List.range m.height).flatMap fun y =>
    (List.range m.width).filterMap fun x =>
      match m.getCell ⟨(x : Int), (y : Int)⟩ with
      | some Cell.enemy => some (⟨(x : Int), (y : Int)⟩, Cell.enemy)
      | some Cell.monster => some (⟨(x : Int), (y : Int)⟩, Cell.monster)
      | _ => none

/-- Sequential processing of the scanned hostiles, threading the state
and accumulating the movement log. -/
def hostileFold (init : GameState × List MoveLog) (entities : List (Position × Cell)) :
    GameState × List MoveLog :=
  entities.foldl (fun acc e =>
    let r := acc.1.moveEntity e.1 e.2
    (r.1, acc.2 ++ r.2)) init

/-- Hostile pursuit phase, mirroring
`GameState.move_enemies_and_monsters`: scan for hostiles, process each
in row-major order, then run the overlap safety net. -/
def GameState.moveEnemiesAndMonsters (s : GameState) : GameState × List MoveLog :=
  let r := hostileFold (s, []) s.map.findHostiles
  (r.1.checkAndHandleOverlaps.1, r.2)

/-- Modelled from the spec: the `has_line_of_sight` predicate invoked
by `NavigatorTool.scan_surroundings` is absent from the source tree;
section 4.5 of the spec describes line-of-sight filtering as a
configurable scan behavior rather than a fixed rule, so the scan below
is parameterized by an arbitrary line-of-sight predicate. -/
def LineOfSight : Type :=
  Position → Position → Bool

/-- Direction descriptor of a scanned cell relative to the ship,
mirroring the nested `get_direction` helper of `scan_surroundings`. -/
def getDirection (fromPos toPos : Position) : String :=
  let dx := toPos.x - fromPos.x
  let dy := toPos.y - fromPos.y
  let part1 :=
    if dy < 0 then [toString dy.natAbs ++ "N"]
    else if 0 < dy then [toString dy ++ "S"]
    else []
  let part2 :=
    if 0 < dx then [toString dx ++ "E"]
    else if dx < 0 then [toString dx.natAbs ++ "W"]
    else []
  match part1 ++ part2 with
  | [a, b] => a ++ " + " ++ b
  | [a] => a
  | _ => "same position"

/-- One categorized finding of the scan: a direction descriptor plus
the Manhattan distance from the ship. -/
structure ScanEntry where
  direction : String
  distance : Nat
  deriving DecidableEq

/-- Entries of one category of the scan report, in surrounding-cell
iteration order: in-bounds cells of the requested type within the box,
excluding the ship position and cells the line-of-sight predicate
rejects. -/
def GameState.scanItems (gs : GameState) (los : LineOfSight) (radius : Nat) (target : Cell) :
    List ScanEntry :=
  (gs.map.getSurroundingCells gs.shipPos radius).filterMap fun pc =>
    if pc.1 = gs.shipPos then none
    else if los gs.shipPos pc.1 then
      if pc.2 = target then
        some ⟨getDirection gs.shipPos pc.1, manhattanDist gs.shipPos pc.1⟩
      else none
    else none

/-- Comparison used to sort scan categories by ascending distance. -/
def distLE (a b : ScanEntry) : Bool :=
  a.distance ≤ b.distance

/-- Stable sort of a scan category by ascending distance. -/
def sortByDistance (l : List ScanEntry) : List ScanEntry :=
  l.mergeSort distLE

/-- Natural-language summary of the scan, mirroring
`NavigatorTool._generate_scan_summary`. -/
def generateScanSummary (treasures enemies monsters _obstacles : List ScanEntry) : String :=
  let s1 :=
    match treasures with
    | t :: _ => ["Nearest treasure " ++ toString t.distance ++ " miles " ++ t.direction]
    | [] => []
  let immediate := (enemies ++ monsters).filter fun t => t.distance ≤ 1
  let s2 :=
    if 0 < immediate.length then
      ["DANGER: " ++ toString immediate.length ++ " threat(s) within 1 mile!"]
    else []
  let nearby := (enemies ++ monsters).filter fun t => 1 < t.distance ∧ t.distance ≤ 2
  let s3 :=
    if 0 < nearby.length then
      [toString nearby.length ++ " threat(s) within 2 miles"]
    else []
  match s1 ++ s2 ++ s3 with
  | [] => "Area appears safe"
  | parts => String.intercalate " | " parts

/-- The structured report of `NavigatorTool.scan_surroundings`. -/
structure ScanReport where
  scanRadius : Nat
  treasuresNearby : List ScanEntry
  enemiesNearby : List ScanEntry
  monstersNearby : List ScanEntry
  landObstacles : List ScanEntry
  safeWaterPositions : List ScanEntry
  immediateThreats : List ScanEntry
  reachableTreasures : List ScanEntry
  summary : String

/-- Environment scan, mirroring `NavigatorTool.scan_surroundings`:
categorize the surrounding cells, sort the treasure and hostile
categories by ascending distance, and derive the immediate threats,
the reachable treasures and the summary string. -/
def GameState.scanSurroundings (gs : GameState) (los : LineOfSight) (radius : Nat) :
    ScanReport :=
  let treasures := sortByDistance (gs.scanItems los radius Cell.treasure)
  let enemies := sortByDistance (gs.scanItems los radius Cell.enemy)
  let monsters := sortByDistance (gs.scanItems los radius Cell.monster)
  let land := gs.scanItems los radius Cell.land
  let water := gs.scanItems los radius Cell.water
  { scanRadius := radius
    treasuresNearby := treasures
    enemiesNearby := enemies
    monstersNearby := monsters
    landObstacles := land
    safeWaterPositions := water
    immediateThreats := (enemies ++ monsters).filter fun t => t.distance ≤ 1
    reachableTreasures := treasures.filter fun t => t.distance ≤ 3
    summary := generateScanSummary treasures enemies monsters land }

/-! Concrete fixtures used to instantiate the theorems below. -/

/-- Open-water 5 by 5 map with a single land cell at (2, 2). -/
def mapA : GameMap :=
  ⟨5, 5, fun x y => if x = 2 ∧ y = 2 then Cell.land else Cell.water⟩

/-- Game state on `mapA` with the ship at the origin. -/
def gsA : GameState :=
  { map := mapA, shipPos := ⟨0, 0⟩, treasuresCollected := 0, lives := 3,
    cannonballs := 25, score := 0, enemiesDefeated := 0, monstersDefeated := 0,
    turnCount := 0, totalTreasures := 5, gameOver := false, victory := false }

/-- Open-water 5 by 5 map with a single enemy cell at (1, 0). -/
def mapE : GameMap :=
  ⟨5, 5, fun x y => if x = 1 ∧ y = 0 then Cell.enemy else Cell.water⟩

/-- Game state on `mapE` with the ship at the origin. -/
def gsE : GameState :=
  { map := mapE, shipPos := ⟨0, 0⟩, treasuresCollected := 0, lives := 3,
    cannonballs := 25, score := 0, enemiesDefeated := 0, monstersDefeated := 0,
    turnCount := 0, totalTreasures := 5, gameOver := false, victory := false }

/-- Open-water 5 by 5 map with monsters at (1, 1) and (4, 4). -/
def mapH : GameMap :=
  ⟨5, 5, fun x y => if (x = 1 ∧ y = 1) ∨ (x = 4 ∧ y = 4) then Cell.monster else Cell.water⟩

/-- Game state on `mapH` with the ship at the origin: the monster at
(1, 1) is an adjacent pursuer, the one at (4, 4) is out of range. -/
def gsH : GameState :=
  { map := mapH, shipPos := ⟨0, 0⟩, treasuresCollected := 0, lives := 3,
    cannonballs := 25, score := 0, enemiesDefeated := 0, monstersDefeated := 0,
    turnCount := 0, totalTreasures := 5, gameOver := false, victory := false }

/-- One-column, three-row map: a treasure two tiles due north of the
ship marker, clear water between them, and no hostiles. -/
def map3 : GameMap :=
  ⟨1, 3, fun _ y => if y = 0 then Cell.treasure else if y = 2 then Cell.ownship else Cell.water⟩

/-- The game state produced by loading `map3`. -/
def startState : GameState :=
  { map := map3.setCell ⟨0, 2⟩ Cell.water, shipPos := ⟨0, 2⟩, treasuresCollected := 0,
    lives := 3, cannonballs := 25, score := 0, enemiesDefeated := 0, monstersDefeated := 0,
    turnCount := 0, totalTreasures := 1, gameOver := false, victory := false }

/-- The ship-cell invariant: the grid cell at the current ship position
is water. -/
def ShipInv (s : GameState) : Prop :=
  s.map.getCell s.shipPos = some Cell.water

/-- No ship-marker cell remains on the grid.  The load format requires
exactly one marker, which construction replaces with water, so this
holds for every state reachable from a well-formed load; it is the
strengthening under which the ship-cell invariant is inductive. -/
def NoShipMarker (s : GameState) : Prop :=
  ∀ p, s.map.getCell p ≠ some Cell.ownship

/-- The diagonal pursuit step of a hostile at `p` toward the ship: a
unit sign step on each axis. -/
def diagStep (s : GameState) (p : Position) : Position :=
  ⟨p.x + stepSign (s.shipPos.x - p.x), p.y + stepSign (s.shipPos.y - p.y)⟩

/-! Basic facts about the grid operations. -/

theorem isValidPosition_iff {m : GameMap} {p : Position} :
    m.isValidPosition p = true ↔
      0 ≤ p.x ∧ p.x < (m.width : Int) ∧ 0 ≤ p.y ∧ p.y < (m.height : Int) := by
  simp [GameMap.isValidPosition, and_assoc]

theorem isValidPosition_of_getCell {m : GameMap} {p : Position} {c : Cell}
    (h : m.getCell p = some c) : m.isValidPosition p = true := by
  cases hv : m.isValidPosition p
  · rw [GameMap.getCell, hv] at h; simp at h
  · rfl

theorem setCell_width (m : GameMap) (p : Position) (v : Cell) :
    (m.setCell p v).width = m.width := by
  rw [GameMap.setCell]; split <;> rfl

theorem setCell_height (m : GameMap) (p : Position) (v : Cell) :
    (m.setCell p v).height = m.height := by
  rw [GameMap.setCell]; split <;> rfl

theorem isValidPosition_setCell (m : GameMap) (q : Position) (v : Cell) (p : Position) :
    (m.setCell q v).isValidPosition p = m.isValidPosition p := by
  rw [GameMap.isValidPosition, GameMap.isValidPosition, setCell_width, setCell_height]

theorem getCell_setCell_self {m : GameMap} {p : Position} (v : Cell)
    (h : m.isValidPosition p = true) : (m.setCell p v).getCell p = some v := by
  have hv : (m.setCell p v).isValidPosition p = true := by
    rw [isValidPosition_setCell]; exact h
  rw [GameMap.getCell, hv, if_pos rfl, GameMap.setCell, if_pos h]
  simp

theorem getCell_setCell_ne {m : GameMap} {q p : Position} (v : Cell) (hne : q ≠ p) :
    (m.setCell q v).getCell p = m.getCell p := by
  cases hq : m.isValidPosition q with
  | false => rw [GameMap.setCell, if_neg (by simp [hq])]
  | true =>
    cases hp : m.isValidPosition p with
    | false =>
      rw [GameMap.getCell, GameMap.getCell, isValidPosition_setCell, hp]
      simp
    | true =>
      have hps : (m.setCell q v).isValidPosition p = true := by
        rw [isValidPosition_setCell]; exact hp
      rw [GameMap.getCell, GameMap.getCell, hps, hp, if_pos rfl, if_pos rfl,
        GameMap.setCell, if_pos hq]
      simp only
      rw [if_neg]
      intro hco
      rcases isValidPosition_iff.1 hq with ⟨hq1, _, hq2, _⟩
      rcases isValidPosition_iff.1 hp with ⟨hp1, _, hp2, _⟩
      apply hne
      have hx : q.x = p.x := by omega
      have hy : q.y = p.y := by omega
      cases q; cases p
      simp_all

theorem canMoveTo_of_water {m : GameMap} {p : Position}
    (h : m.getCell p = some Cell.water) : m.canMoveTo p = true := by
  have hv := isValidPosition_of_getCell h
  rw [GameMap.canMoveTo, if_pos hv, h]
  rfl

theorem canMoveTo_true_iff {m : GameMap} {p : Position} :
    m.canMoveTo p = true ↔ m.isValidPosition p = true ∧ m.getCell p ≠ some Cell.land := by
  rw [GameMap.canMoveTo]
  cases hv : m.isValidPosition p <;> simp

/-! Facts about the step walk of `is_path_clear`. -/

theorem walkSteps_ok_of_canMoveTo {m : GameMap} {step : Position → Position} :
    ∀ {n : Nat} {cur : Position}, (∀ p ∈ raySteps step n cur, m.canMoveTo p = true) →
      walkSteps m step n cur = .ok (step^[n] cur, raySteps step n cur) := by
  intro n
  induction n with
  | zero => intro cur _; rfl
  | succ k ih =>
    intro cur h
    have h1 : m.canMoveTo (step cur) = true := by
      apply h
      rw [raySteps]
      exact List.mem_cons_self _ _
    have h2 : ∀ p ∈ raySteps step k (step cur), m.canMoveTo p = true := by
      intro p hp
      apply h
      rw [raySteps]
      exact List.mem_cons_of_mem _ hp
    rw [walkSteps]
    simp only [h1, if_true, ih h2, raySteps, Function.iterate_succ_apply]

theorem walkSteps_ok_elim {m : GameMap} {step : Position → Position} :
    ∀ {n : Nat} {cur : Position} {pr : Position × List Position},
      walkSteps m step n cur = .ok pr →
      pr = (step^[n] cur, raySteps step n cur) ∧
        ∀ p ∈ raySteps step n cur, m.canMoveTo p = true := by
  intro n
  induction n with
  | zero =>
    intro cur pr h
    rw [walkSteps] at h
    cases h
    exact ⟨rfl, by simp [raySteps]⟩
  | succ k ih =>
    intro cur pr h
    rw [walkSteps] at h
    cases h1 : m.canMoveTo (step cur) with
    | false => rw [h1] at h; simp at h
    | true =>
      rw [h1] at h
      simp only [if_true] at h
      cases hrec : walkSteps m step k (step cur) with
      | error e => rw [hrec] at h; simp at h
      | ok pr' =>
        rw [hrec] at h
        simp only [] at h
        cases h
        rcases ih hrec with ⟨hpr', hmem⟩
        constructor
        · rw [hpr']
          simp [raySteps, Function.iterate_succ_apply]
        · intro p hp
          rw [raySteps] at hp
          rcases List.mem_cons.1 hp with h' | h'
          · rw [h']; exact h1
          · exact hmem p h'

theorem walkSteps_blocked {m : GameMap} {step : Position → Position} :
    ∀ {n : Nat} {cur : Position} {pre post : List Position} {p : Position},
      raySteps step n cur = pre ++ p :: post →
      (∀ q ∈ pre, m.canMoveTo q = true) → m.canMoveTo p = false →
      walkSteps m step n cur = .error (m.getCell p, p) := by
  intro n
  induction n with
  | zero =>
    intro cur pre post p h _ _
    rw [raySteps] at h
    cases pre <;> simp at h
  | succ k ih =>
    intro cur pre post p h hpre hblock
    rw [raySteps] at h
    cases pre with
    | nil =>
      simp only [List.nil_append, List.cons.injEq] at h
      obtain ⟨h1, -⟩ := h
      subst h1
      rw [walkSteps]
      simp [hblock]
    | cons q pre' =>
      simp only [List.cons_append, List.cons.injEq] at h
      have hq : m.canMoveTo (step cur) = true := by
        rw [h.1]
        exact hpre q (List.mem_cons_self _ _)
      have hrec := ih h.2 (fun r hr => hpre r (List.mem_cons_of_mem _ hr)) hblock
      rw [walkSteps]
      simp only [hq, if_true, hrec]

theorem natAbs_mul_stepSign (d : Int) : (d.natAbs : Int) * stepSign d = d := by
  rw [stepSign]
  split_ifs with h1 h2
  · rw [mul_one]; omega
  · rw [mul_neg_one]; omega
  · rw [mul_zero]; omega

theorem iterate_hStep (dx : Int) : ∀ (n : Nat) (p : Position),
    (hStep dx)^[n] p = ⟨p.x + n * stepSign dx, p.y⟩ := by
  intro n
  induction n with
  | zero => intro p; cases p; simp
  | succ k ih =>
    intro p
    rw [Function.iterate_succ_apply, ih]
    rw [hStep]
    simp only [Position.mk.injEq]
    refine ⟨by push_cast; ring, trivial⟩

theorem iterate_vStep (dy : Int) : ∀ (n : Nat) (p : Position),
    (vStep dy)^[n] p = ⟨p.x, p.y + n * stepSign dy⟩ := by
  intro n
  induction n with
  | zero => intro p; cases p; simp
  | succ k ih =>
    intro p
    rw [Function.iterate_succ_apply, ih]
    rw [vStep]
    simp only [Position.mk.injEq]
    refine ⟨trivial, by push_cast; ring⟩

theorem hStep_iterate_natAbs (dx : Int) (p : Position) :
    (hStep dx)^[dx.natAbs] p = ⟨p.x + dx, p.y⟩ := by
  rw [iterate_hStep, natAbs_mul_stepSign]

theorem vStep_iterate_natAbs (dy : Int) (p : Position) :
    (vStep dy)^[dy.natAbs] p = ⟨p.x, p.y + dy⟩ := by
  rw [iterate_vStep, natAbs_mul_stepSign]

theorem raySteps_concat (step : Position → Position) :
    ∀ (n : Nat), 0 < n → ∀ (cur : Position),
      ∃ l, raySteps step n cur = l ++ [step^[n] cur] := by
  intro n
  induction n with
  | zero => intro h; omega
  | succ k ih =>
    intro _ cur
    rcases Nat.eq_zero_or_pos k with hk | hk
    · subst hk
      exact ⟨[], by simp [raySteps]⟩
    · rcases ih hk (step cur) with ⟨l, hl⟩
      refine ⟨step cur :: l, ?_⟩
      rw [raySteps, hl, Function.iterate_succ_apply]
      simp

theorem pathPositions_concat (s : Position) {dx dy : Int}
    (h : 1 ≤ dx.natAbs + dy.natAbs) :
    ∃ l, pathPositions s dx dy = l ++ [(⟨s.x + dx, s.y + dy⟩ : Position)] := by
  by_cases hdy : dy = 0
  · subst hdy
    have hdx : 0 < dx.natAbs := by omega
    rcases raySteps_concat (hStep dx) dx.natAbs hdx s with ⟨l, hl⟩
    refine ⟨l, ?_⟩
    rw [pathPositions, hl, hStep_iterate_natAbs]
    simp [raySteps]
  · have hdy' : 0 < dy.natAbs := Int.natAbs_pos.2 hdy
    rcases raySteps_concat (vStep dy) dy.natAbs hdy' ⟨s.x + dx, s.y⟩ with ⟨l, hl⟩
    refine ⟨raySteps (hStep dx) dx.natAbs s ++ l, ?_⟩
    rw [pathPositions, hl, vStep_iterate_natAbs]
    simp

theorem mem_pathPositions_target {s : Position} {dx dy : Int}
    (h : 1 ≤ dx.natAbs + dy.natAbs) :
    (⟨s.x + dx, s.y + dy⟩ : Position) ∈ pathPositions s dx dy := by
  rcases pathPositions_concat s h with ⟨l, hl⟩
  rw [hl]
  simp

/-! Characterization of `is_path_clear`. -/

theorem isPathClear_far {m : GameMap} {s e : Position} (h : 3 < manhattanDist s e) :
    m.isPathClear s e = (false, distMsg (manhattanDist s e), []) := by
  rw [manhattanDist] at h ⊢
  simp only [GameMap.isPathClear]
  rw [if_pos h]

theorem isPathClear_of_clear {m : GameMap} {s e : Position}
    (hd : manhattanDist s e ≤ 3)
    (hpath : ∀ p ∈ pathPositions s (e.x - s.x) (e.y - s.y), m.canMoveTo p = true) :
    m.isPathClear s e = (true, "Path is clear", pathPositions s (e.x - s.x) (e.y - s.y)) := by
  rw [manhattanDist] at hd
  have hlt : ¬ 3 < (e.x - s.x).natAbs + (e.y - s.y).natAbs := by omega
  have h1 : ∀ p ∈ raySteps (hStep (e.x - s.x)) (e.x - s.x).natAbs s,
      m.canMoveTo p = true := by
    intro p hp
    exact hpath p (by rw [pathPositions]; exact List.mem_append_left _ hp)
  have h2 : ∀ p ∈ raySteps (vStep (e.y - s.y)) (e.y - s.y).natAbs
      (⟨s.x + (e.x - s.x), s.y⟩ : Position), m.canMoveTo p = true := by
    intro p hp
    exact hpath p (by rw [pathPositions]; exact List.mem_append_right _ hp)
  simp only [GameMap.isPathClear, if_neg hlt, walkSteps_ok_of_canMoveTo h1,
    hStep_iterate_natAbs, walkSteps_ok_of_canMoveTo h2, pathPositions]

theorem isPathClear_blocked {m : GameMap} {s e : Position} {pre post : List Position}
    {p : Position} (hd : manhattanDist s e ≤ 3)
    (hsplit : pathPositions s (e.x - s.x) (e.y - s.y) = pre ++ p :: post)
    (hpre : ∀ q ∈ pre, m.canMoveTo q = true) (hblock : m.canMoveTo p = false) :
    m.isPathClear s e = (false, blockedMsg (m.getCell p) p, []) := by
  rw [manhattanDist] at hd
  have hlt : ¬ 3 < (e.x - s.x).natAbs + (e.y - s.y).natAbs := by omega
  rw [pathPositions] at hsplit
  rcases List.append_eq_append_iff.1 hsplit with ⟨a, ha1, ha2⟩ | ⟨c, hc1, hc2⟩
  · have hh : ∀ q ∈ raySteps (hStep (e.x - s.x)) (e.x - s.x).natAbs s,
        m.canMoveTo q = true := by
      intro q hq
      exact hpre q (by rw [ha1]; exact List.mem_append_left _ hq)
    have ha : ∀ q ∈ a, m.canMoveTo q = true := by
      intro q hq
      exact hpre q (by rw [ha1]; exact List.mem_append_right _ hq)
    have hv := walkSteps_blocked ha2 ha hblock
    simp only [GameMap.isPathClear, if_neg hlt, walkSteps_ok_of_canMoveTo hh,
      hStep_iterate_natAbs, hv]
  · cases c with
    | nil =>
      rw [List.append_nil] at hc1
      rw [List.nil_append] at hc2
      have hh : ∀ q ∈ raySteps (hStep (e.x - s.x)) (e.x - s.x).natAbs s,
          m.canMoveTo q = true := by
        intro q hq
        rw [hc1] at hq
        exact hpre q hq
      have hsplit2 : raySteps (vStep (e.y - s.y)) (e.y - s.y).natAbs
          (⟨s.x + (e.x - s.x), s.y⟩ : Position) = [] ++ p :: post := by
        rw [List.nil_append]
        exact hc2.symm
      have hv := walkSteps_blocked hsplit2 (fun q hq => absurd hq (List.not_mem_nil q)) hblock
      simp only [GameMap.isPathClear, if_neg hlt, walkSteps_ok_of_canMoveTo hh,
        hStep_iterate_natAbs, hv]
    | cons r c' =>
      rw [List.cons_append, List.cons.injEq] at hc2
      obtain ⟨hrp, -⟩ := hc2
      subst hrp
      have hsplit1 : raySteps (hStep (e.x - s.x)) (e.x - s.x).natAbs s =
          pre ++ p :: c' := hc1
      have hh := walkSteps_blocked hsplit1 hpre hblock
      simp only [GameMap.isPathClear, if_neg hlt, hh]

/-- C1: whenever the horizontal-then-vertical path to the requested
target is invalid, `move_ship` returns failure carrying exactly the
blocking reason produced by `is_path_clear`, and the entire game state
(ship position, turn counter, lives, cannonballs, score, treasures and
every grid cell) is returned unchanged. -/
theorem c1_invalid_move_rejected_without_mutation (s : GameState) (d : Int × Int)
    (h : (s.map.isPathClear s.shipPos ⟨s.shipPos.x + d.1, s.shipPos.y + d.2⟩).1 = false) :
    s.moveShip d = (false,
      (s.map.isPathClear s.shipPos ⟨s.shipPos.x + d.1, s.shipPos.y + d.2⟩).2.1, s) := by
  simp only [GameState.moveShip]
  rcases hpc : s.map.isPathClear s.shipPos ⟨s.shipPos.x + d.1, s.shipPos.y + d.2⟩
    with ⟨b, msg, path⟩
  rw [hpc] at h
  simp only [] at h
  subst h
  rfl

/-- Witness for C1: moving four tiles east from the origin on `mapA`
exceeds the range limit and leaves the state untouched. -/
theorem c1_witness :
    gsA.moveShip (4, 0) = (false,
      (gsA.map.isPathClear gsA.shipPos
        ⟨gsA.shipPos.x + (4, (0 : Int)).1, gsA.shipPos.y + (4, (0 : Int)).2⟩).2.1, gsA) :=
  c1_invalid_move_rejected_without_mutation gsA (4, 0) (by decide)

/-- C3: the cardinal path trace fails when the Manhattan distance
exceeds 3; otherwise it walks all horizontal steps before all vertical
steps, succeeds with exactly that ordered step list (excluding the
start) when every stepped cell is traversable, and fails fast at the
first non-traversable stepped cell, reporting that cell's content and
coordinates. -/
theorem c3_cardinal_path_trace (m : GameMap) (s e : Position) :
    (3 < manhattanDist s e →
      m.isPathClear s e = (false, distMsg (manhattanDist s e), [])) ∧
    (manhattanDist s e ≤ 3 →
      (∀ p ∈ pathPositions s (e.x - s.x) (e.y - s.y), m.canMoveTo p = true) →
      m.isPathClear s e = (true, "Path is clear", pathPositions s (e.x - s.x) (e.y - s.y))) ∧
    (manhattanDist s e ≤ 3 → ∀ pre p post,
      pathPositions s (e.x - s.x) (e.y - s.y) = pre ++ p :: post →
      (∀ q ∈ pre, m.canMoveTo q = true) → m.canMoveTo p = false →
      m.isPathClear s e = (false, blockedMsg (m.getCell p) p, [])) :=
  ⟨fun h => isPathClear_far h,
   fun hd hp => isPathClear_of_clear hd hp,
   fun hd _ _ _ h1 h2 h3 => isPathClear_blocked hd h1 h2 h3⟩

/-- Witness for C3: the two-tile eastward path from the origin on
`mapA` is clear and traced in order. -/
theorem c3_witness :
    manhattanDist ⟨0, 0⟩ ⟨2, 0⟩ ≤ 3 ∧
    mapA.isPathClear ⟨0, 0⟩ ⟨2, 0⟩ = (true, "Path is clear",
      pathPositions ⟨0, 0⟩ ((⟨2, 0⟩ : Position).x - (⟨0, 0⟩ : Position).x)
        ((⟨2, 0⟩ : Position).y - (⟨0, 0⟩ : Position).y)) :=
  ⟨by decide, (c3_cardinal_path_trace mapA ⟨0, 0⟩ ⟨2, 0⟩).2.1 (by decide) (by decide)⟩

/-- C4: firing consumes exactly one cannonball whenever ammunition is
positive and the target is within Manhattan distance 5 — for hits,
misses and non-hostile or out-of-bounds targets alike — and consumes
none when the distance exceeds 5 or no cannonball is left. -/
theorem c4_cannonball_consumption (s : GameState) (t : Position) (r : ℚ) :
    (0 < s.cannonballs → manhattanDist s.shipPos t ≤ 5 →
      (s.fireCannon t r).2.2.cannonballs = s.cannonballs - 1) ∧
    ((s.cannonballs = 0 ∨ 5 < manhattanDist s.shipPos t) →
      (s.fireCannon t r).2.2.cannonballs = s.cannonballs) := by
  constructor
  · intro h1 h2
    simp only [GameState.fireCannon]
    rw [if_neg (by omega), if_neg (by omega)]
    split_ifs <;> rfl
  · intro h
    simp only [GameState.fireCannon]
    split_ifs <;> first | rfl | omega

/-- Witness for C4: on `gsE`, a shot at the adjacent enemy consumes one
cannonball and a shot eight tiles away consumes none. -/
theorem c4_witness :
    (gsE.fireCannon ⟨1, 0⟩ (1/2)).2.2.cannonballs = gsE.cannonballs - 1 ∧
    (gsE.fireCannon ⟨4, 4⟩ (1/2)).2.2.cannonballs = gsE.cannonballs :=
  ⟨(c4_cannonball_consumption gsE ⟨1, 0⟩ (1/2)).1 (by decide) (by decide),
   (c4_cannonball_consumption gsE ⟨4, 4⟩ (1/2)).2 (Or.inr (by decide))⟩

/-- C5: an in-range shot at a hostile with ammunition available hits
exactly when the uniform draw is at most the tabulated probability for
the Manhattan distance (0.95/0.90/0.75/0.50/0.25 for 1..5, 0.25
elsewhere); a hit turns the target cell to water and credits the
matching defeat counter and score (+10 enemy, +50 monster), while a
miss changes nothing beyond the consumed cannonball. -/
theorem c5_hostile_shot_resolution (s : GameState) (t : Position) (r : ℚ)
    (h1 : 0 < s.cannonballs)
    (h2 : s.map.getCell t = some Cell.enemy ∨ s.map.getCell t = some Cell.monster)
    (h3 : manhattanDist s.shipPos t ≤ 5) :
    ((s.fireCannon t r).1 = true ↔ r ≤ hitProbabilities (manhattanDist s.shipPos t)) ∧
    (hitProbabilities 1 = 95/100 ∧ hitProbabilities 2 = 90/100 ∧
      hitProbabilities 3 = 75/100 ∧ hitProbabilities 4 = 50/100 ∧
      hitProbabilities 5 = 25/100 ∧
      ∀ k : Nat, k = 0 ∨ 5 < k → hitProbabilities k = 25/100) ∧
    (r ≤ hitProbabilities (manhattanDist s.shipPos t) →
      (s.fireCannon t r).2.2 =
        (if s.map.getCell t = some Cell.enemy then
          { s with cannonballs := s.cannonballs - 1,
                   map := s.map.setCell t Cell.water,
                   enemiesDefeated := s.enemiesDefeated + 1,
                   score := s.score + 10 }
        else
          { s with cannonballs := s.cannonballs - 1,
                   map := s.map.setCell t Cell.water,
                   monstersDefeated := s.monstersDefeated + 1,
                   score := s.score + 50 })) ∧
    (¬ r ≤ hitProbabilities (manhattanDist s.shipPos t) →
      (s.fireCannon t r).2.2 = { s with cannonballs := s.cannonballs - 1 }) := by
  have ha : ¬ s.cannonballs ≤ 0 := by omega
  have hb : ¬ 5 < manhattanDist s.shipPos t := by omega
  simp only [GameState.fireCannon, if_neg ha, if_neg hb, if_pos h2]
  refine ⟨?_, ⟨rfl, rfl, rfl, rfl, rfl, ?_⟩, ?_, ?_⟩
  · split_ifs with hr <;> simp [hr]
  · intro k hk
    rcases hk with hk | hk
    · subst hk; rfl
    · match k, hk with
      | n + 6, _ => rfl
  · intro hr
    rw [if_pos hr]
  · intro hr
    rw [if_neg hr]

/-- Witness for C5: on `gsE`, a roll of 0.1 against the adjacent enemy
hits exactly when 0.1 is at most the distance-1 probability. -/
theorem c5_witness :
    (gsE.fireCannon ⟨1, 0⟩ (1/10)).1 = true ↔
      (1/10 : ℚ) ≤ hitProbabilities (manhattanDist gsE.shipPos ⟨1, 0⟩) :=
  (c5_hostile_shot_resolution gsE ⟨1, 0⟩ (1/10) (by decide)
    (Or.inl (by decide)) (by decide)).1

/-- C8: collision with a hostile has the same effect on both code
paths: the per-step encounter handling of `move_ship` on a hostile cell
produces exactly the state of `resolve_collision` at that cell — one
life lost and the hostile cell cleared to water — and whenever the
pursuit step of `move_enemies_and_monsters` logs a collision, its
resulting state is again exactly the `resolve_collision` state. -/
theorem c8_collision_symmetry (s : GameState) (p : Position)
    (h : s.map.getCell p = some Cell.enemy ∨ s.map.getCell p = some Cell.monster) :
    (s.processStep p =
      (s.resolveCollision p (hostileName ((s.map.getCell p).getD Cell.water))).1) ∧
    ((s.processStep p).lives = s.lives - 1) ∧
    ((s.processStep p).map.getCell p = some Cell.water) ∧
    (∀ (et : Cell) (log : MoveLog), (s.moveEntity p et).2 = [log] → log.collision = true →
      (s.moveEntity p et).1 = (s.resolveCollision p (hostileName et)).1) := by
  have hvalid : s.map.isValidPosition p = true := by
    rcases h with h | h <;> exact isValidPosition_of_getCell h
  have hstep : s.processStep p =
      (s.resolveCollision p (hostileName ((s.map.getCell p).getD Cell.water))).1 := by
    rcases h with h | h <;>
      simp only [GameState.processStep, GameState.resolveCollision, h, Option.getD]
  refine ⟨hstep, ?_, ?_, ?_⟩
  · rw [hstep]; rfl
  · rw [hstep]
    simp only [GameState.resolveCollision]
    exact getCell_setCell_self Cell.water hvalid
  · intro et log hlog hcol
    simp only [GameState.moveEntity] at hlog ⊢
    by_cases hd : chebyshevDist p s.shipPos ≤ 3
    · rw [if_pos hd] at hlog ⊢
      rcases hch : s.chooseMove p with _ | np
      · rw [hch] at hlog
        dsimp only [] at hlog
        simp only [List.cons.injEq] at hlog
        rw [← hlog.1] at hcol
        simp at hcol
      · rw [hch] at hlog
        dsimp only [] at hlog ⊢
        by_cases hnp : np = s.shipPos
        · rw [if_pos hnp]
        · rw [if_neg hnp] at hlog
          simp only [List.cons.injEq] at hlog
          rw [← hlog.1] at hcol
          simp at hcol
    · rw [if_neg hd] at hlog
      simp at hlog

/-- Witness for C8: stepping onto the enemy cell of `gsE` is the same
state change as resolving a collision there. -/
theorem c8_witness :
    gsE.processStep ⟨1, 0⟩ =
      (gsE.resolveCollision ⟨1, 0⟩
        (hostileName ((gsE.map.getCell ⟨1, 0⟩).getD Cell.water))).1 :=
  (c8_collision_symmetry gsE ⟨1, 0⟩ (Or.inl (by decide))).1

/-! Facts about the encounter loop on clear-water paths. -/

theorem processStep_water {s : GameState} {p : Position}
    (h : s.map.getCell p = some Cell.water) : s.processStep p = s := by
  simp [GameState.processStep, h]

theorem isEncounterCell_water {s : GameState} {p : Position}
    (h : s.map.getCell p = some Cell.water) : s.isEncounterCell p = false := by
  simp [GameState.isEncounterCell, h]

theorem processSteps_water (s : GameState) :
    ∀ (l : List Position), (∀ p ∈ l, s.map.getCell p = some Cell.water) →
      s.processSteps l = (s, 0) := by
  intro l
  induction l with
  | nil => intro _; rfl
  | cons p rest ih =>
    intro h
    have hp := h p (List.mem_cons_self _ _)
    have hrest : ∀ q ∈ rest, s.map.getCell q = some Cell.water :=
      fun q hq => h q (List.mem_cons_of_mem _ hq)
    simp only [GameState.processSteps, List.foldl_cons]
    rw [processStep_water hp, isEncounterCell_water hp]
    simp only [Bool.false_eq_true, if_false, Nat.add_zero]
    exact ih hrest

theorem checkAndHandleOverlaps_water (s : GameState)
    (h : s.map.getCell s.shipPos = some Cell.water) :
    s.checkAndHandleOverlaps = (s, "") := by
  simp [GameState.checkAndHandleOverlaps, h]

/-- C2: a purely axis-aligned move of Manhattan length 1 to 3 whose
step path lies entirely on in-bounds water succeeds, increments the
turn counter by exactly 1, relocates the ship to start plus direction,
and leaves lives, cannonballs, score and treasures collected
unchanged. -/
theorem c2_clear_water_move (s : GameState) (d : Int × Int)
    (_haxis : d.1 = 0 ∨ d.2 = 0)
    (hlen1 : 1 ≤ d.1.natAbs + d.2.natAbs)
    (hlen3 : d.1.natAbs + d.2.natAbs ≤ 3)
    (hwater : ∀ p ∈ pathPositions s.shipPos d.1 d.2, s.map.getCell p = some Cell.water) :
    (s.moveShip d).1 = true ∧
    (s.moveShip d).2.2.turnCount = s.turnCount + 1 ∧
    (s.moveShip d).2.2.shipPos = (⟨s.shipPos.x + d.1, s.shipPos.y + d.2⟩ : Position) ∧
    (s.moveShip d).2.2.lives = s.lives ∧
    (s.moveShip d).2.2.cannonballs = s.cannonballs ∧
    (s.moveShip d).2.2.score = s.score ∧
    (s.moveShip d).2.2.treasuresCollected = s.treasuresCollected := by
  have hdx : (⟨s.shipPos.x + d.1, s.shipPos.y + d.2⟩ : Position).x - s.shipPos.x = d.1 := by
    show s.shipPos.x + d.1 - s.shipPos.x = d.1
    omega
  have hdy : (⟨s.shipPos.x + d.1, s.shipPos.y + d.2⟩ : Position).y - s.shipPos.y = d.2 := by
    show s.shipPos.y + d.2 - s.shipPos.y = d.2
    omega
  have hman : manhattanDist s.shipPos (⟨s.shipPos.x + d.1, s.shipPos.y + d.2⟩ : Position) ≤ 3 := by
    show (s.shipPos.x + d.1 - s.shipPos.x).natAbs + (s.shipPos.y + d.2 - s.shipPos.y).natAbs ≤ 3
    omega
  have hpath' : ∀ p ∈ pathPositions s.shipPos
      ((⟨s.shipPos.x + d.1, s.shipPos.y + d.2⟩ : Position).x - s.shipPos.x)
      ((⟨s.shipPos.x + d.1, s.shipPos.y + d.2⟩ : Position).y - s.shipPos.y),
      s.map.canMoveTo p = true := by
    intro p hp
    rw [hdx, hdy] at hp
    exact canMoveTo_of_water (hwater p hp)
  have hpc := isPathClear_of_clear hman hpath'
  rw [hdx, hdy] at hpc
  have hfold := processSteps_water s (pathPositions s.shipPos d.1 d.2) hwater
  have htw : s.map.getCell (⟨s.shipPos.x + d.1, s.shipPos.y + d.2⟩ : Position) =
      some Cell.water := by
    apply hwater
    exact mem_pathPositions_target hlen1
  have hov := checkAndHandleOverlaps_water
    { s with shipPos := (⟨s.shipPos.x + d.1, s.shipPos.y + d.2⟩ : Position),
             turnCount := s.turnCount + 1 } htw
  simp only [GameState.moveShip, hpc, hfold, hov]
  refine ⟨?_, ?_, ?_, ?_, ?_, ?_, ?_⟩ <;> first | trivial | (split_ifs <;> rfl)

/-- C6: on `map3` — one ship marker, one treasure two tiles due north
across clear water, no hostiles — loading yields `startState`, and
`move (0, -2)` succeeds, collects the treasure, raises cannonballs from
25 to 27 and the score by 10, turns the treasure cell to water, and
ends the game with victory since it was the only treasure. -/
theorem c6_treasure_victory_scenario :
    mkGameState map3 = some startState ∧
    startState.cannonballs = 25 ∧
    startState.totalTreasures = 1 ∧
    (startState.moveShip (0, -2)).1 = true ∧
    (startState.moveShip (0, -2)).2.2.treasuresCollected = 1 ∧
    (startState.moveShip (0, -2)).2.2.cannonballs = 27 ∧
    (startState.moveShip (0, -2)).2.2.score = startState.score + 10 ∧
    (startState.moveShip (0, -2)).2.2.map.getCell ⟨0, 0⟩ = some Cell.water ∧
    (startState.moveShip (0, -2)).2.2.victory = true ∧
    (startState.moveShip (0, -2)).2.2.gameOver = true :=
  ⟨rfl, rfl, by decide, by decide, by decide, by decide, by decide, by decide,
   by decide, by decide⟩

/-- Witness for C2: moving two tiles east through open water on `gsA`
succeeds with the expected bookkeeping. -/
theorem c2_witness :
    (gsA.moveShip (2, 0)).1 = true ∧
    (gsA.moveShip (2, 0)).2.2.turnCount = gsA.turnCount + 1 ∧
    (gsA.moveShip (2, 0)).2.2.shipPos =
      (⟨gsA.shipPos.x + (2, (0 : Int)).1, gsA.shipPos.y + (2, (0 : Int)).2⟩ : Position) ∧
    (gsA.moveShip (2, 0)).2.2.lives = gsA.lives ∧
    (gsA.moveShip (2, 0)).2.2.cannonballs = gsA.cannonballs ∧
    (gsA.moveShip (2, 0)).2.2.score = gsA.score ∧
    (gsA.moveShip (2, 0)).2.2.treasuresCollected = gsA.treasuresCollected :=
  c2_clear_water_move gsA (2, 0) (Or.inr (by decide)) (by decide) (by decide) (by decide)

/-! Facts supporting the ship-cell invariant. -/

theorem takeDamage_map (s : GameState) : s.takeDamage.map = s.map := rfl

theorem getCell_setCell_cases (m : GameMap) (q p : Position) (v : Cell) :
    (m.setCell q v).getCell p = m.getCell p ∨ (m.setCell q v).getCell p = some v := by
  by_cases hq : q = p
  · subst hq
    by_cases hv : m.isValidPosition q = true
    · exact Or.inr (getCell_setCell_self v hv)
    · left
      rw [GameMap.setCell, if_neg hv]
  · exact Or.inl (getCell_setCell_ne v hq)

theorem mem_findCellType {m : GameMap} {c : Cell} {p : Position} :
    p ∈ m.findCellType c ↔ m.isValidPosition p = true ∧ m.getCell p = some c := by
  rw [GameMap.findCellType]
  simp only [List.mem_flatMap, List.mem_filterMap, List.mem_range]
  constructor
  · rintro ⟨y, hy, x, hx, hpx⟩
    by_cases hcell : m.cell x y = c
    · rw [if_pos hcell] at hpx
      simp only [Option.some.injEq] at hpx
      subst hpx
      have hv : m.isValidPosition ⟨(x : Int), (y : Int)⟩ = true := by
        rw [isValidPosition_iff]
        refine ⟨?_, ?_, ?_, ?_⟩ <;> simp <;> omega
      refine ⟨hv, ?_⟩
      rw [GameMap.getCell, if_pos hv]
      simp only [Int.toNat_ofNat]
      rw [hcell]
    · rw [if_neg hcell] at hpx
      simp at hpx
  · rintro ⟨hv, hc⟩
    rcases isValidPosition_iff.1 hv with ⟨h1, h2, h3, h4⟩
    refine ⟨p.y.toNat, by omega, p.x.toNat, by omega, ?_⟩
    have hcell : m.cell p.x.toNat p.y.toNat = c := by
      rw [GameMap.getCell, if_pos hv] at hc
      simpa using hc
    rw [if_pos hcell]
    simp only [Option.some.injEq]
    rw [show ((p.x.toNat : Int)) = p.x by omega, show ((p.y.toNat : Int)) = p.y by omega]

theorem processStep_map (s : GameState) (q : Position) :
    (s.processStep q).map = s.map ∨
    (s.processStep q).map = s.map.setCell q Cell.water := by
  unfold GameState.processStep
  rcases hc : s.map.getCell q with _ | c
  · exact Or.inl (by simp [hc])
  · cases c
    · exact Or.inl (by simp [hc])
    · exact Or.inl (by simp [hc])
    · exact Or.inr (by simp [hc, GameState.collectTreasure])
    · exact Or.inr (by simp [hc, takeDamage_map])
    · exact Or.inr (by simp [hc, takeDamage_map])
    · exact Or.inl (by simp [hc])

theorem canMoveTo_processStep (s : GameState) (q p : Position)
    (h : s.map.canMoveTo p = true) : (s.processStep q).map.canMoveTo p = true := by
  rcases processStep_map s q with hm | hm <;> rw [hm]
  · exact h
  · rw [canMoveTo_true_iff] at h ⊢
    refine ⟨by rw [isValidPosition_setCell]; exact h.1, ?_⟩
    rcases getCell_setCell_cases s.map q p Cell.water with hg | hg <;> rw [hg]
    · exact h.2
    · simp

theorem noShipMarker_processStep (s : GameState) (q : Position)
    (h : NoShipMarker s) : NoShipMarker (s.processStep q) := by
  intro p
  rcases processStep_map s q with hm | hm <;> rw [hm]
  · exact h p
  · rcases getCell_setCell_cases s.map q p Cell.water with hg | hg <;> rw [hg]
    · exact h p
    · simp

theorem processStep_getCell_self (s : GameState) (p : Position)
    (h : s.map.canMoveTo p = true) (hns : s.map.getCell p ≠ some Cell.ownship) :
    (s.processStep p).map.getCell p = some Cell.water := by
  rcases canMoveTo_true_iff.1 h with ⟨hv, hnl⟩
  unfold GameState.processStep
  rcases hc : s.map.getCell p with _ | c
  · rw [GameMap.getCell, if_pos hv] at hc
    simp at hc
  · cases c
    · simp [hc]
    · exact absurd hc hnl
    · simp [hc, GameState.collectTreasure, getCell_setCell_self Cell.water hv]
    · simp [hc, takeDamage_map, getCell_setCell_self Cell.water hv]
    · simp [hc, takeDamage_map, getCell_setCell_self Cell.water hv]
    · exact absurd hc hns

theorem canMoveTo_foldl (p : Position) :
    ∀ (l : List Position) (s : GameState), s.map.canMoveTo p = true →
      ((l.foldl GameState.processStep s)).map.canMoveTo p = true := by
  intro l
  induction l with
  | nil => intro s h; exact h
  | cons q rest ih =>
    intro s h
    rw [List.foldl_cons]
    exact ih _ (canMoveTo_processStep s q p h)

theorem noShipMarker_foldl :
    ∀ (l : List Position) (s : GameState), NoShipMarker s →
      NoShipMarker (l.foldl GameState.processStep s) := by
  intro l
  induction l with
  | nil => intro s h; exact h
  | cons q rest ih =>
    intro s h
    rw [List.foldl_cons]
    exact ih _ (noShipMarker_processStep s q h)

theorem foldl_processStep_getCell_target (s : GameState) (l : List Position) (t : Position)
    (hcan : ∀ p ∈ l ++ [t], s.map.canMoveTo p = true) (hns : NoShipMarker s) :
    ((l ++ [t]).foldl GameState.processStep s).map.getCell t = some Cell.water := by
  rw [List.foldl_append, List.foldl_cons, List.foldl_nil]
  apply processStep_getCell_self
  · exact canMoveTo_foldl t l s (hcan t (by simp))
  · exact noShipMarker_foldl l s hns t

theorem processSteps_fst_aux (l : List Position) :
    ∀ (s : GameState) (n : Nat),
      (l.foldl (fun acc p =>
        (acc.1.processStep p, acc.2 + (if acc.1.isEncounterCell p then 1 else 0))) (s, n)).1 =
      l.foldl GameState.processStep s := by
  induction l with
  | nil => intro s n; rfl
  | cons q rest ih =>
    intro s n
    rw [List.foldl_cons, List.foldl_cons]
    exact ih _ _

theorem processSteps_fst (s : GameState) (l : List Position) :
    (s.processSteps l).1 = l.foldl GameState.processStep s := by
  rw [GameState.processSteps]
  exact processSteps_fst_aux l s 0

theorem raySteps_eq_nil {step : Position → Position} {n : Nat} {cur : Position} :
    raySteps step n cur = [] ↔ n = 0 := by
  cases n <;> simp [raySteps]

theorem isPathClear_ok_elim {m : GameMap} {s e : Position} {msg : String}
    {path : List Position} (h : m.isPathClear s e = (true, msg, path)) :
    path = pathPositions s (e.x - s.x) (e.y - s.y) ∧ ∀ p ∈ path, m.canMoveTo p = true := by
  simp only [GameMap.isPathClear] at h
  by_cases hd : 3 < (e.x - s.x).natAbs + (e.y - s.y).natAbs
  · rw [if_pos hd] at h
    simp at h
  · rw [if_neg hd] at h
    rcases hw1 : walkSteps m (hStep (e.x - s.x)) (e.x - s.x).natAbs s with e1 | ⟨mid, hp1⟩
    · rw [hw1] at h
      simp at h
    · rw [hw1] at h
      dsimp only [] at h
      have he1 := walkSteps_ok_elim hw1
      have hmid : mid = (⟨s.x + (e.x - s.x), s.y⟩ : Position) := by
        have := congrArg Prod.fst he1.1
        rw [hStep_iterate_natAbs] at this
        exact this
      have hp1eq : hp1 = raySteps (hStep (e.x - s.x)) (e.x - s.x).natAbs s :=
        congrArg Prod.snd he1.1
      subst hmid
      rcases hw2 : walkSteps m (vStep (e.y - s.y)) (e.y - s.y).natAbs
          (⟨s.x + (e.x - s.x), s.y⟩ : Position) with e2 | ⟨fin2, vp⟩
      · rw [hw2] at h
        simp at h
      · rw [hw2] at h
        dsimp only [] at h
        have he2 := walkSteps_ok_elim hw2
        have hvpeq : vp = raySteps (vStep (e.y - s.y)) (e.y - s.y).natAbs
            (⟨s.x + (e.x - s.x), s.y⟩ : Position) := congrArg Prod.snd he2.1
        simp only [Prod.mk.injEq] at h
        obtain ⟨-, -, hpath⟩ := h
        constructor
        · rw [← hpath, hp1eq, hvpeq, pathPositions]
        · intro p hp
          rw [← hpath] at hp
          rcases List.mem_append.1 hp with hp' | hp'
          · rw [hp1eq] at hp'
            exact he1.2 p hp'
          · rw [hvpeq] at hp'
            exact he2.2 p hp'

theorem moveShip_inv (s : GameState) (d : Int × Int)
    (hinv : ShipInv s) (hns : NoShipMarker s) :
    ShipInv (s.moveShip d).2.2 ∧ NoShipMarker (s.moveShip d).2.2 := by
  rcases hpc : s.map.isPathClear s.shipPos ⟨s.shipPos.x + d.1, s.shipPos.y + d.2⟩
    with ⟨b, msg, path⟩
  cases b
  case false =>
    simp only [GameState.moveShip, hpc]
    exact ⟨hinv, hns⟩
  case true =>
    obtain ⟨hpatheq, hcan⟩ := isPathClear_ok_elim hpc
    have hdx : (⟨s.shipPos.x + d.1, s.shipPos.y + d.2⟩ : Position).x - s.shipPos.x = d.1 := by
      show s.shipPos.x + d.1 - s.shipPos.x = d.1
      omega
    have hdy : (⟨s.shipPos.x + d.1, s.shipPos.y + d.2⟩ : Position).y - s.shipPos.y = d.2 := by
      show s.shipPos.y + d.2 - s.shipPos.y = d.2
      omega
    rw [hdx, hdy] at hpatheq
    have key : ((s.processSteps path).1).map.getCell
        (⟨s.shipPos.x + d.1, s.shipPos.y + d.2⟩ : Position) = some Cell.water ∧
        NoShipMarker (s.processSteps path).1 := by
      by_cases hnil : path = []
      · rw [hnil] at hpatheq
        have hb := List.append_eq_nil.1 (by rw [pathPositions] at hpatheq; exact hpatheq.symm)
        have hx0 : d.1.natAbs = 0 := raySteps_eq_nil.1 hb.1
        have hy0 : d.2.natAbs = 0 := raySteps_eq_nil.1 hb.2
        have ht : (⟨s.shipPos.x + d.1, s.shipPos.y + d.2⟩ : Position) = s.shipPos := by
          rw [show s.shipPos.x + d.1 = s.shipPos.x by omega,
            show s.shipPos.y + d.2 = s.shipPos.y by omega]
        rw [hnil]
        constructor
        · show s.map.getCell _ = some Cell.water
          rw [ht]
          exact hinv
        · exact hns
      · have hlen : 1 ≤ d.1.natAbs + d.2.natAbs := by
          rcases Nat.eq_zero_or_pos (d.1.natAbs + d.2.natAbs) with h0 | h0
          · exfalso
            apply hnil
            rw [hpatheq, pathPositions, show d.1.natAbs = 0 by omega,
              show d.2.natAbs = 0 by omega]
            rfl
          · omega
        obtain ⟨l, hl⟩ := pathPositions_concat s.shipPos hlen
        rw [hl] at hpatheq
        rw [hpatheq] at hcan ⊢
        rw [processSteps_fst]
        exact ⟨foldl_processStep_getCell_target s l _ hcan hns,
          noShipMarker_foldl _ s hns⟩
    obtain ⟨hwater2, hns1⟩ := key
    have hov := checkAndHandleOverlaps_water
      { (s.processSteps path).1 with
        shipPos := (⟨s.shipPos.x + d.1, s.shipPos.y + d.2⟩ : Position),
        turnCount := (s.processSteps path).1.turnCount + 1 } hwater2
    simp only [GameState.moveShip, hpc, hov]
    constructor
    · split_ifs <;> exact hwater2
    · split_ifs <;> exact fun p => hns1 p

theorem setWater_inv (s : GameState) (t : Position)
    (hinv : ShipInv s) (hns : NoShipMarker s) :
    ((s.map.setCell t Cell.water).getCell s.shipPos = some Cell.water) ∧
    (∀ p, (s.map.setCell t Cell.water).getCell p ≠ some Cell.ownship) := by
  constructor
  · rcases getCell_setCell_cases s.map t s.shipPos Cell.water with h | h
    · rw [h]; exact hinv
    · exact h
  · intro p
    rcases getCell_setCell_cases s.map t p Cell.water with h | h <;> rw [h]
    · exact hns p
    · simp

theorem fireCannon_inv (s : GameState) (t : Position) (r : ℚ)
    (hinv : ShipInv s) (hns : NoShipMarker s) :
    ShipInv (s.fireCannon t r).2.2 ∧ NoShipMarker (s.fireCannon t r).2.2 := by
  simp only [GameState.fireCannon]
  split_ifs <;>
    first
      | exact ⟨hinv, hns⟩
      | exact ⟨(setWater_inv s t hinv hns).1, fun p => (setWater_inv s t hinv hns).2 p⟩

theorem moveEntity_inv (s : GameState) (p : Position) (et : Cell)
    (hinv : ShipInv s) (hns : NoShipMarker s)
    (het : et = Cell.enemy ∨ et = Cell.monster) :
    ShipInv (s.moveEntity p et).1 ∧ NoShipMarker (s.moveEntity p et).1 := by
  simp only [GameState.moveEntity]
  by_cases hd : chebyshevDist p s.shipPos ≤ 3
  · rw [if_pos hd]
    rcases hch : s.chooseMove p with _ | np
    · exact ⟨hinv, hns⟩
    · dsimp only []
      by_cases hnp : np = s.shipPos
      · rw [if_pos hnp]
        exact ⟨(setWater_inv s p hinv hns).1, fun q => (setWater_inv s p hinv hns).2 q⟩
      · rw [if_neg hnp]
        constructor
        · show ((s.map.setCell p Cell.water).setCell np et).getCell s.shipPos = some Cell.water
          rw [getCell_setCell_ne et hnp]
          exact (setWater_inv s p hinv hns).1
        · intro q
          rcases getCell_setCell_cases (s.map.setCell p Cell.water) np q et with h | h <;>
            rw [h]
          · exact (setWater_inv s p hinv hns).2 q
          · rcases het with he | he <;> rw [he] <;> simp
  · rw [if_neg hd]
    exact ⟨hinv, hns⟩

theorem hostileFold_inv :
    ∀ (entities : List (Position × Cell)) (init : GameState × List MoveLog),
      ShipInv init.1 → NoShipMarker init.1 →
      (∀ e ∈ entities, e.2 = Cell.enemy ∨ e.2 = Cell.monster) →
      ShipInv (hostileFold init entities).1 ∧ NoShipMarker (hostileFold init entities).1 := by
  intro entities
  induction entities with
  | nil => intro init h1 h2 _; exact ⟨h1, h2⟩
  | cons e rest ih =>
    intro init h1 h2 hall
    simp only [hostileFold, List.foldl_cons]
    refine ih _ ?_ ?_ (fun q hq => hall q (List.mem_cons_of_mem _ hq))
    · exact (moveEntity_inv init.1 e.1 e.2 h1 h2 (hall e (List.mem_cons_self _ _))).1
    · exact (moveEntity_inv init.1 e.1 e.2 h1 h2 (hall e (List.mem_cons_self _ _))).2

theorem mem_findHostiles {m : GameMap} {pc : Position × Cell} (h : pc ∈ m.findHostiles) :
    (pc.2 = Cell.enemy ∨ pc.2 = Cell.monster) ∧ m.getCell pc.1 = some pc.2 := by
  rw [GameMap.findHostiles] at h
  simp only [List.mem_flatMap, List.mem_filterMap, List.mem_range] at h
  rcases h with ⟨y, hy, x, hx, hpx⟩
  rcases hc : m.getCell ⟨(x : Int), (y : Int)⟩ with _ | c
  · rw [hc] at hpx
    simp at hpx
  · rw [hc] at hpx
    cases c
    · simp at hpx
    · simp at hpx
    · simp at hpx
    · dsimp only [] at hpx
      simp only [Option.some.injEq] at hpx
      subst hpx
      exact ⟨Or.inl rfl, hc⟩
    · dsimp only [] at hpx
      simp only [Option.some.injEq] at hpx
      subst hpx
      exact ⟨Or.inr rfl, hc⟩
    · simp at hpx

theorem moveEnemiesAndMonsters_inv (s : GameState)
    (hinv : ShipInv s) (hns : NoShipMarker s) :
    ShipInv (s.moveEnemiesAndMonsters).1 ∧ NoShipMarker (s.moveEnemiesAndMonsters).1 := by
  have hfold := hostileFold_inv s.map.findHostiles (s, []) hinv hns
    (fun e he => (mem_findHostiles he).1)
  have hov := checkAndHandleOverlaps_water (hostileFold (s, []) s.map.findHostiles).1 hfold.1
  simp only [GameState.moveEnemiesAndMonsters, hov]
  exact hfold

theorem mkGameState_inv {m : GameMap} {g : GameState} (h : mkGameState m = some g) :
    ShipInv g ∧ ((m.findCellType Cell.ownship).length = 1 → NoShipMarker g) := by
  rw [mkGameState] at h
  rcases hf : m.findCellType Cell.ownship with _ | ⟨p, rest⟩
  · rw [hf] at h
    simp at h
  · rw [hf] at h
    dsimp only [] at h
    simp only [Option.some.injEq] at h
    subst h
    have hpmem : p ∈ m.findCellType Cell.ownship := by
      rw [hf]
      exact List.mem_cons_self _ _
    have hpvalid : m.isValidPosition p = true := (mem_findCellType.1 hpmem).1
    constructor
    · show (m.setCell p Cell.water).getCell p = some Cell.water
      exact getCell_setCell_self Cell.water hpvalid
    · intro hone q hq
      have hrest : rest = [] := by
        simp only [List.length_cons] at hone
        exact List.length_eq_zero.1 (by omega)
      by_cases hqp : p = q
      · subst hqp
        rw [getCell_setCell_self Cell.water hpvalid] at hq
        simp at hq
      · rw [getCell_setCell_ne Cell.water hqp] at hq
        have hqmem : q ∈ m.findCellType Cell.ownship :=
          mem_findCellType.2 ⟨isValidPosition_of_getCell hq, hq⟩
        rw [hf, hrest] at hqmem
        simp only [List.mem_singleton] at hqmem
        exact hqp hqmem.symm

/-- C9: the grid cell at the ship position is always water: it is
established at construction (the unique ship marker is replaced by
water, so no marker cell survives loading), and both the water-cell
property and the absence of ship markers are preserved by `move_ship`,
`fire_cannon` and the hostile pursuit phase. -/
theorem c9_ship_cell_always_water :
    (∀ (m : GameMap) (g : GameState), mkGameState m = some g →
      ShipInv g ∧ ((m.findCellType Cell.ownship).length = 1 → NoShipMarker g)) ∧
    (∀ (s : GameState) (d : Int × Int), ShipInv s → NoShipMarker s →
      ShipInv (s.moveShip d).2.2 ∧ NoShipMarker (s.moveShip d).2.2) ∧
    (∀ (s : GameState) (t : Position) (r : ℚ), ShipInv s → NoShipMarker s →
      ShipInv (s.fireCannon t r).2.2 ∧ NoShipMarker (s.fireCannon t r).2.2) ∧
    (∀ (s : GameState), ShipInv s → NoShipMarker s →
      ShipInv (s.moveEnemiesAndMonsters).1 ∧ NoShipMarker (s.moveEnemiesAndMonsters).1) :=
  ⟨fun _ _ h => mkGameState_inv h,
   fun s d h1 h2 => moveShip_inv s d h1 h2,
   fun s t r h1 h2 => fireCannon_inv s t r h1 h2,
   fun s h1 h2 => moveEnemiesAndMonsters_inv s h1 h2⟩

theorem shipInv_gsA : ShipInv gsA := by
  show gsA.map.getCell gsA.shipPos = some Cell.water
  decide

theorem noShipMarker_gsA : NoShipMarker gsA := by
  intro p hq
  simp only [gsA, mapA, GameMap.getCell, GameMap.isValidPosition] at hq
  split_ifs at hq <;> simp at hq

theorem shipInv_gsE : ShipInv gsE := by
  show gsE.map.getCell gsE.shipPos = some Cell.water
  decide

theorem noShipMarker_gsE : NoShipMarker gsE := by
  intro p hq
  simp only [gsE, mapE, GameMap.getCell, GameMap.isValidPosition] at hq
  split_ifs at hq <;> simp at hq

theorem shipInv_gsH : ShipInv gsH := by
  show gsH.map.getCell gsH.shipPos = some Cell.water
  decide

theorem noShipMarker_gsH : NoShipMarker gsH := by
  intro p hq
  simp only [gsH, mapH, GameMap.getCell, GameMap.isValidPosition] at hq
  split_ifs at hq <;> simp at hq

/-! Facts about the hostile pursuit phase. -/

theorem stepSign_eq_zero_iff {d : Int} : stepSign d = 0 ↔ d = 0 := by
  rw [stepSign]
  split_ifs <;> simp <;> omega

theorem moveEntity_log_range (s : GameState) (q : Position) (et : Cell) :
    ∀ log ∈ (s.moveEntity q et).2, log.fromPos = q ∧ chebyshevDist q s.shipPos ≤ 3 := by
  intro log hlog
  simp only [GameState.moveEntity] at hlog
  by_cases hd : chebyshevDist q s.shipPos ≤ 3
  · rw [if_pos hd] at hlog
    rcases hch : s.chooseMove q with _ | np
    · rw [hch] at hlog
      dsimp only [] at hlog
      simp only [List.mem_singleton] at hlog
      subst hlog
      exact ⟨rfl, hd⟩
    · rw [hch] at hlog
      dsimp only [] at hlog
      by_cases hnp : np = s.shipPos
      · rw [if_pos hnp] at hlog
        simp only [List.mem_singleton] at hlog
        subst hlog
        exact ⟨rfl, hd⟩
      · rw [if_neg hnp] at hlog
        simp only [List.mem_singleton] at hlog
        subst hlog
        exact ⟨rfl, hd⟩
  · rw [if_neg hd] at hlog
    simp at hlog

theorem moveEntity_shipPos (s : GameState) (q : Position) (et : Cell) :
    (s.moveEntity q et).1.shipPos = s.shipPos := by
  simp only [GameState.moveEntity]
  by_cases hd : chebyshevDist q s.shipPos ≤ 3
  · rw [if_pos hd]
    rcases hch : s.chooseMove q with _ | np
    · rfl
    · dsimp only []
      by_cases hnp : np = s.shipPos
      · rw [if_pos hnp]
        rfl
      · rw [if_neg hnp]
  · rw [if_neg hd]

theorem chooseMove_water {s : GameState} {q np : Position} (h : s.chooseMove q = some np) :
    s.map.isValidPosition np = true ∧ s.map.getCell np = some Cell.water := by
  rw [GameState.chooseMove] at h
  have := List.find?_some h
  simp only [Bool.and_eq_true, beq_iff_eq] at this
  exact this

theorem moveEntity_getCell_preserved (s : GameState) (q : Position) (et : Cell)
    (p : Position) (hfar : 3 < chebyshevDist p s.shipPos)
    (hnw : s.map.getCell p ≠ some Cell.water) :
    (s.moveEntity q et).1.map.getCell p = s.map.getCell p := by
  simp only [GameState.moveEntity]
  by_cases hd : chebyshevDist q s.shipPos ≤ 3
  · have hqp : q ≠ p := by
      intro hqp
      subst hqp
      omega
    rw [if_pos hd]
    rcases hch : s.chooseMove q with _ | np
    · rfl
    · dsimp only []
      by_cases hnp : np = s.shipPos
      · rw [if_pos hnp]
        show (s.map.setCell q Cell.water).getCell p = s.map.getCell p
        exact getCell_setCell_ne Cell.water hqp
      · rw [if_neg hnp]
        have hnpw := (chooseMove_water hch).2
        have hnpp : np ≠ p := by
          intro he
          subst he
          exact hnw hnpw
        show ((s.map.setCell q Cell.water).setCell np et).getCell p = s.map.getCell p
        rw [getCell_setCell_ne et hnpp, getCell_setCell_ne Cell.water hqp]
  · rw [if_neg hd]

theorem hostileFold_far :
    ∀ (entities : List (Position × Cell)) (init : GameState × List MoveLog)
      (s0ship p : Position) (c0 : Option Cell),
      init.1.shipPos = s0ship →
      init.1.map.getCell p = c0 →
      3 < chebyshevDist p s0ship →
      c0 ≠ some Cell.water →
      (∀ log ∈ init.2, log.fromPos ≠ p) →
      (hostileFold init entities).1.shipPos = s0ship ∧
      (hostileFold init entities).1.map.getCell p = c0 ∧
      (∀ log ∈ (hostileFold init entities).2, log.fromPos ≠ p) := by
  intro entities
  induction entities with
  | nil => intro init s0ship p c0 h1 h2 _ _ h5; exact ⟨h1, h2, h5⟩
  | cons e rest ih =>
    intro init s0ship p c0 h1 h2 h3 h4 h5
    simp only [hostileFold, List.foldl_cons]
    apply ih
    · show (init.1.moveEntity e.1 e.2).1.shipPos = s0ship
      rw [moveEntity_shipPos]
      exact h1
    · show (init.1.moveEntity e.1 e.2).1.map.getCell p = c0
      rw [moveEntity_getCell_preserved init.1 e.1 e.2 p (by rw [h1]; exact h3)
        (by rw [h2]; exact h4)]
      exact h2
    · exact h3
    · exact h4
    · intro log hlog
      rcases List.mem_append.1 hlog with hl | hl
      · exact h5 log hl
      · obtain ⟨hfrom, hrange⟩ := moveEntity_log_range init.1 e.1 e.2 log hl
        intro hcontra
        rw [hcontra] at hfrom
        rw [← hfrom, h1] at hrange
        omega

theorem checkAndHandleOverlaps_getCell_ne (s : GameState) (p : Position)
    (h : p ≠ s.shipPos) :
    (s.checkAndHandleOverlaps).1.map.getCell p = s.map.getCell p := by
  rw [GameState.checkAndHandleOverlaps]
  rcases hc : s.map.getCell s.shipPos with _ | c
  · rfl
  · cases c
    · rfl
    · rfl
    · rfl
    · show (s.map.setCell s.shipPos Cell.water).getCell p = s.map.getCell p
      exact getCell_setCell_ne Cell.water (Ne.symm h)
    · show (s.map.setCell s.shipPos Cell.water).getCell p = s.map.getCell p
      exact getCell_setCell_ne Cell.water (Ne.symm h)
    · rfl

/-- C7: during the hostile pursuit phase, a hostile beyond Chebyshev
distance 3 of the ship neither moves nor produces any movement-log
entry, and an in-range hostile misaligned on both axes whose diagonal
step toward the ship lands on an in-bounds water cell takes exactly
that diagonal step, in preference to the axis-only alternatives. -/
theorem c7_hostile_pursuit :
    (∀ (s : GameState) (p : Position) (c : Cell),
      s.map.getCell p = some c → (c = Cell.enemy ∨ c = Cell.monster) →
      3 < chebyshevDist p s.shipPos →
      (∀ log ∈ (s.moveEnemiesAndMonsters).2, log.fromPos ≠ p) ∧
      (s.moveEnemiesAndMonsters).1.map.getCell p = some c) ∧
    (∀ (s : GameState) (p : Position) (et : Cell),
      chebyshevDist p s.shipPos ≤ 3 →
      s.shipPos.x ≠ p.x → s.shipPos.y ≠ p.y →
      s.map.isValidPosition (diagStep s p) = true →
      s.map.getCell (diagStep s p) = some Cell.water →
      ∃ log, (s.moveEntity p et).2 = [log] ∧ log.fromPos = p ∧
        log.toPos = diagStep s p) := by
  constructor
  · intro s p c hc hhost hfar
    have hnw : (some c : Option Cell) ≠ some Cell.water := by
      rcases hhost with h | h <;> rw [h] <;> simp
    obtain ⟨hsh, hcell, hlogs⟩ := hostileFold_far s.map.findHostiles (s, []) s.shipPos p
      (some c) rfl hc hfar hnw (by simp)
    have hps : p ≠ (hostileFold (s, []) s.map.findHostiles).1.shipPos := by
      rw [hsh]
      intro he
      rw [he] at hfar
      simp [chebyshevDist] at hfar
    simp only [GameState.moveEnemiesAndMonsters]
    refine ⟨hlogs, ?_⟩
    rw [checkAndHandleOverlaps_getCell_ne _ _ hps]
    exact hcell
  · intro s p et hd hx hy hvalid hwater
    have hsx : stepSign (s.shipPos.x - p.x) ≠ 0 := by
      rw [Ne, stepSign_eq_zero_iff]
      omega
    have hsy : stepSign (s.shipPos.y - p.y) ≠ 0 := by
      rw [Ne, stepSign_eq_zero_iff]
      omega
    have hopts : s.movementOptions p =
        diagStep s p ::
          (⟨p.x + stepSign (s.shipPos.x - p.x), p.y⟩ : Position) ::
          [(⟨p.x, p.y + stepSign (s.shipPos.y - p.y)⟩ : Position)] := by
      simp only [GameState.movementOptions, if_pos (And.intro hsx hsy), if_pos hsx,
        if_pos hsy, diagStep]
      rfl
    have hpred : (s.map.isValidPosition (diagStep s p) &&
        (s.map.getCell (diagStep s p) == some Cell.water)) = true := by
      rw [hvalid, hwater]
      rfl
    have hch : s.chooseMove p = some (diagStep s p) := by
      rw [GameState.chooseMove, hopts]
      exact List.find?_cons_of_pos _ hpred
    simp only [GameState.moveEntity, if_pos hd, hch]
    by_cases hnp : diagStep s p = s.shipPos
    · rw [if_pos hnp]
      exact ⟨_, rfl, rfl, rfl⟩
    · rw [if_neg hnp]
      exact ⟨_, rfl, rfl, rfl⟩

/-- Witness for C7: on `gsH`, the monster at (4, 4) is out of range and
untouched, while the monster at (1, 1) takes its diagonal step onto the
ship tile. -/
theorem c7_witness :
    ((∀ log ∈ (gsH.moveEnemiesAndMonsters).2, log.fromPos ≠ (⟨4, 4⟩ : Position)) ∧
      (gsH.moveEnemiesAndMonsters).1.map.getCell ⟨4, 4⟩ = some Cell.monster) ∧
    (∃ log, (gsH.moveEntity ⟨1, 1⟩ Cell.monster).2 = [log] ∧
      log.fromPos = (⟨1, 1⟩ : Position) ∧ log.toPos = diagStep gsH ⟨1, 1⟩) :=
  ⟨c7_hostile_pursuit.1 gsH ⟨4, 4⟩ Cell.monster (by decide) (Or.inr rfl) (by decide),
   c7_hostile_pursuit.2 gsH ⟨1, 1⟩ Cell.monster (by decide) (by decide) (by decide)
     (by decide) (by decide)⟩

/-- Witness for C9: the invariant holds after loading `map3` and is
carried through a move, a cannon shot and a pursuit phase on concrete
states. -/
theorem c9_witness :
    (ShipInv startState ∧
      ((map3.findCellType Cell.ownship).length = 1 → NoShipMarker startState)) ∧
    (ShipInv (gsA.moveShip (1, 0)).2.2 ∧ NoShipMarker (gsA.moveShip (1, 0)).2.2) ∧
    (ShipInv (gsE.fireCannon ⟨1, 0⟩ (1/10)).2.2 ∧
      NoShipMarker (gsE.fireCannon ⟨1, 0⟩ (1/10)).2.2) ∧
    (ShipInv (gsH.moveEnemiesAndMonsters).1 ∧ NoShipMarker (gsH.moveEnemiesAndMonsters).1) :=
  ⟨c9_ship_cell_always_water.1 map3 startState rfl,
   c9_ship_cell_always_water.2.1 gsA (1, 0) shipInv_gsA noShipMarker_gsA,
   c9_ship_cell_always_water.2.2.1 gsE ⟨1, 0⟩ (1/10) shipInv_gsE noShipMarker_gsE,
   c9_ship_cell_always_water.2.2.2 gsH shipInv_gsH noShipMarker_gsH⟩

/-! Facts about the environment scan. -/

theorem mem_rangeOffsets {radius : Nat} {d : Int} :
    d ∈ rangeOffsets radius ↔ -(radius : Int) ≤ d ∧ d ≤ radius := by
  rw [rangeOffsets]
  constructor
  · intro h
    obtain ⟨i, hi, hd⟩ := List.mem_map.1 h
    rw [List.mem_range] at hi
    omega
  · rintro ⟨h1, h2⟩
    exact List.mem_map.2 ⟨(d + radius).toNat, List.mem_range.2 (by omega), by omega⟩

theorem mem_getSurroundingCells {m : GameMap} {pos : Position} {radius : Nat}
    {p : Position} {c : Cell} :
    (p, c) ∈ m.getSurroundingCells pos radius ↔
      m.getCell p = some c ∧
      (p.x - pos.x).natAbs ≤ radius ∧ (p.y - pos.y).natAbs ≤ radius := by
  rw [GameMap.getSurroundingCells]
  simp only [List.mem_flatMap, List.mem_filterMap]
  constructor
  · rintro ⟨dy, hdy, dx, hdx, hpc⟩
    rcases hc : m.getCell ⟨pos.x + dx, pos.y + dy⟩ with _ | c'
    · rw [hc] at hpc
      simp at hpc
    · rw [hc] at hpc
      dsimp only [] at hpc
      simp only [Option.some.injEq, Prod.mk.injEq] at hpc
      obtain ⟨hp, hcc⟩ := hpc
      subst hcc
      subst hp
      refine ⟨hc, ?_, ?_⟩
      · show (pos.x + dx - pos.x).natAbs ≤ radius
        have := mem_rangeOffsets.1 hdx
        omega
      · show (pos.y + dy - pos.y).natAbs ≤ radius
        have := mem_rangeOffsets.1 hdy
        omega
  · rintro ⟨hc, hbx, hby⟩
    refine ⟨p.y - pos.y, mem_rangeOffsets.2 (by omega), p.x - pos.x,
      mem_rangeOffsets.2 (by omega), ?_⟩
    have hp : (⟨pos.x + (p.x - pos.x), pos.y + (p.y - pos.y)⟩ : Position) = p := by
      rw [show pos.x + (p.x - pos.x) = p.x by omega,
        show pos.y + (p.y - pos.y) = p.y by omega]
    rw [hp, hc]

theorem mem_scanItems {gs : GameState} {los : LineOfSight} {radius : Nat}
    {target : Cell} {e : ScanEntry} :
    e ∈ gs.scanItems los radius target ↔
      ∃ p : Position, gs.map.getCell p = some target ∧
        (p.x - gs.shipPos.x).natAbs ≤ radius ∧ (p.y - gs.shipPos.y).natAbs ≤ radius ∧
        p ≠ gs.shipPos ∧ los gs.shipPos p = true ∧
        e = ⟨getDirection gs.shipPos p, manhattanDist gs.shipPos p⟩ := by
  rw [GameState.scanItems]
  simp only [List.mem_filterMap]
  constructor
  · rintro ⟨⟨p, c⟩, hmem, he⟩
    dsimp only [] at he
    by_cases h1 : p = gs.shipPos
    · rw [if_pos h1] at he
      simp at he
    · rw [if_neg h1] at he
      by_cases h2 : los gs.shipPos p = true
      · rw [if_pos h2] at he
        by_cases h3 : c = target
        · rw [if_pos h3] at he
          simp only [Option.some.injEq] at he
          obtain ⟨hc, hbx, hby⟩ := mem_getSurroundingCells.1 hmem
          subst h3
          exact ⟨p, hc, hbx, hby, h1, h2, he.symm⟩
        · rw [if_neg h3] at he
          simp at he
      · rw [if_neg h2] at he
        simp at he
  · rintro ⟨p, hc, hbx, hby, hne, hlos, he⟩
    refine ⟨(p, target), mem_getSurroundingCells.2 ⟨hc, hbx, hby⟩, ?_⟩
    dsimp only []
    rw [if_neg hne, if_pos hlos, if_pos rfl, he]

theorem pairwise_sortByDistance (l : List ScanEntry) :
    (sortByDistance l).Pairwise fun a b => a.distance ≤ b.distance := by
  have htrans : ∀ (a b c : ScanEntry), distLE a b → distLE b c → distLE a c := by
    intro a b c hab hbc
    simp only [distLE, decide_eq_true_eq] at *
    omega
  have htotal : ∀ (a b : ScanEntry), distLE a b || distLE b a := by
    intro a b
    simp only [distLE, Bool.or_eq_true, decide_eq_true_eq]
    omega
  have h := List.sorted_mergeSort htrans htotal l
  rw [sortByDistance]
  exact h.imp fun hab => by simpa [distLE] using hab

/-- C10: the environment scan reports, for the in-bounds cells of the
square box around the ship passing the configured line-of-sight filter,
the treasure, enemy and monster categories with each entry carrying a
direction descriptor and its Manhattan distance from the ship, each
category sorted by ascending distance, together with the derived
immediate threats (hostiles at distance at most 1), reachable treasures
(treasures at distance at most 3) and the summary string. -/
theorem c10_scan_surroundings (gs : GameState) (los : LineOfSight) (radius : Nat) :
    ((gs.scanSurroundings los radius).treasuresNearby.Pairwise
      fun a b => a.distance ≤ b.distance) ∧
    ((gs.scanSurroundings los radius).enemiesNearby.Pairwise
      fun a b => a.distance ≤ b.distance) ∧
    ((gs.scanSurroundings los radius).monstersNearby.Pairwise
      fun a b => a.distance ≤ b.distance) ∧
    (∀ e : ScanEntry, e ∈ (gs.scanSurroundings los radius).treasuresNearby ↔
      ∃ p : Position, gs.map.getCell p = some Cell.treasure ∧
        (p.x - gs.shipPos.x).natAbs ≤ radius ∧ (p.y - gs.shipPos.y).natAbs ≤ radius ∧
        p ≠ gs.shipPos ∧ los gs.shipPos p = true ∧
        e = ⟨getDirection gs.shipPos p, manhattanDist gs.shipPos p⟩) ∧
    (∀ e : ScanEntry, e ∈ (gs.scanSurroundings los radius).enemiesNearby ↔
      ∃ p : Position, gs.map.getCell p = some Cell.enemy ∧
        (p.x - gs.shipPos.x).natAbs ≤ radius ∧ (p.y - gs.shipPos.y).natAbs ≤ radius ∧
        p ≠ gs.shipPos ∧ los gs.shipPos p = true ∧
        e = ⟨getDirection gs.shipPos p, manhattanDist gs.shipPos p⟩) ∧
    (∀ e : ScanEntry, e ∈ (gs.scanSurroundings los radius).monstersNearby ↔
      ∃ p : Position, gs.map.getCell p = some Cell.monster ∧
        (p.x - gs.shipPos.x).natAbs ≤ radius ∧ (p.y - gs.shipPos.y).natAbs ≤ radius ∧
        p ≠ gs.shipPos ∧ los gs.shipPos p = true ∧
        e = ⟨getDirection gs.shipPos p, manhattanDist gs.shipPos p⟩) ∧
    ((gs.scanSurroundings los radius).immediateThreats =
      ((gs.scanSurroundings los radius).enemiesNearby ++
        (gs.scanSurroundings los radius).monstersNearby).filter
          fun t => t.distance ≤ 1) ∧
    ((gs.scanSurroundings los radius).reachableTreasures =
      (gs.scanSurroundings los radius).treasuresNearby.filter fun t => t.distance ≤ 3) ∧
    ((gs.scanSurroundings los radius).summary =
      generateScanSummary (gs.scanSurroundings los radius).treasuresNearby
        (gs.scanSurroundings los radius).enemiesNearby
        (gs.scanSurroundings los radius).monstersNearby
        (gs.scanSurroundings los radius).landObstacles) := by
  refine ⟨pairwise_sortByDistance _, pairwise_sortByDistance _, pairwise_sortByDistance _,
    ?_, ?_, ?_, rfl, rfl, rfl⟩ <;>
  · intro e
    simp only [GameState.scanSurroundings, sortByDistance, List.mem_mergeSort]
    exact mem_scanItems

end Pirates
